import Mathlib

/-!
Verification development for the ehook.app webhook-inspection service.

The TypeScript source is shallowly embedded:
* JavaScript/JSON values that flow through `JSON.parse` / `JSON.stringify`
  and the Upstash Redis client are modelled by the inductive `JVal`
  (JSON numbers are modelled as integers: the only numbers this system
  stores are millisecond timestamps and HTTP status codes).
* The Redis sorted set that backs an endpoint's event log is modelled as a
  list of (score, member) pairs kept sorted by (score, then member), the
  order Redis uses for ranks.
* Fallible external reads are passed explicitly (`RRead`), and a thrown
  step inside the route handler's `try` block is modelled by an explicit
  flag that routes control to the `catch` branch.
-/

/-- A JSON/JavaScript value, as stored and transported by the app. -/
inductive JVal where
  | null : JVal
  | bool (b : Bool) : JVal
  | num (n : Int) : JVal
  | str (s : String) : JVal
  | arr (items : List JVal) : JVal
  | obj (fields : List (String × JVal)) : JVal

mutual

/-- Boolean structural equality on `JVal`. -/
def jeq : JVal → JVal → Bool
  | .null, .null => true
  | .bool a, .bool b => a == b
  | .num a, .num b => a == b
  | .str a, .str b => a == b
  | .arr a, .arr b => jeqL a b
  | .obj a, .obj b => jeqF a b
  | _, _ => false

/-- Boolean equality on lists of `JVal`. -/
def jeqL : List JVal → List JVal → Bool
  | [], [] => true
  | a :: as, b :: bs => jeq a b && jeqL as bs
  | _, _ => false

/-- Boolean equality on JSON object field lists. -/
def jeqF : List (String × JVal) → List (String × JVal) → Bool
  | [], [] => true
  | (k1, v1) :: as, (k2, v2) :: bs => k1 == k2 && jeq v1 v2 && jeqF as bs
  | _, _ => false

end

mutual

/-- Soundness and completeness of `jeq`, used to define decidable equality. -/
def jeqIff : (a b : JVal) → (jeq a b = true ↔ a = b)
  | .null, .null => by simp [jeq]
  | .null, .bool _ => by simp [jeq]
  | .null, .num _ => by simp [jeq]
  | .null, .str _ => by simp [jeq]
  | .null, .arr _ => by simp [jeq]
  | .null, .obj _ => by simp [jeq]
  | .bool _, .null => by simp [jeq]
  | .bool _, .bool _ => by simp [jeq]
  | .bool _, .num _ => by simp [jeq]
  | .bool _, .str _ => by simp [jeq]
  | .bool _, .arr _ => by simp [jeq]
  | .bool _, .obj _ => by simp [jeq]
  | .num _, .null => by simp [jeq]
  | .num _, .bool _ => by simp [jeq]
  | .num _, .num _ => by simp [jeq]
  | .num _, .str _ => by simp [jeq]
  | .num _, .arr _ => by simp [jeq]
  | .num _, .obj _ => by simp [jeq]
  | .str _, .null => by simp [jeq]
  | .str _, .bool _ => by simp [jeq]
  | .str _, .num _ => by simp [jeq]
  | .str _, .str _ => by simp [jeq]
  | .str _, .arr _ => by simp [jeq]
  | .str _, .obj _ => by simp [jeq]
  | .arr _, .null => by simp [jeq]
  | .arr _, .bool _ => by simp [jeq]
  | .arr _, .num _ => by simp [jeq]
  | .arr _, .str _ => by simp [jeq]
  | .arr a, .arr b => by simp [jeq, jeqLIff a b]
  | .arr _, .obj _ => by simp [jeq]
  | .obj _, .null => by simp [jeq]
  | .obj _, .bool _ => by simp [jeq]
  | .obj _, .num _ => by simp [jeq]
  | .obj _, .str _ => by simp [jeq]
  | .obj _, .arr _ => by simp [jeq]
  | .obj a, .obj b => by simp [jeq, jeqFIff a b]

/-- Soundness and completeness of `jeqL`. -/
def jeqLIff : (a b : List JVal) → (jeqL a b = true ↔ a = b)
  | [], [] => by simp [jeqL]
  | [], _ :: _ => by simp [jeqL]
  | _ :: _, [] => by simp [jeqL]
  | a :: as, b :: bs => by
      simp [jeqL, jeqIff a b, jeqLIff as bs]

/-- Soundness and completeness of `jeqF`. -/
def jeqFIff : (a b : List (String × JVal)) → (jeqF a b = true ↔ a = b)
  | [], [] => by simp [jeqF]
  | [], _ :: _ => by simp [jeqF]
  | _ :: _, [] => by simp [jeqF]
  | (k1, v1) :: as, (k2, v2) :: bs => by
      simp [jeqF, jeqIff v1 v2, jeqFIff as bs, and_assoc]

end

instance : DecidableEq JVal := fun a b => decidable_of_iff _ (jeqIff a b)

/-- JavaScript truthiness of a `JVal` (used by `if (settings)`, `if (event.body)`). -/
def truthy : JVal → Bool
  | .null => false
  | .bool b => b
  | .num n => n != 0
  | .str s => s != ""
  | .arr _ => true
  | .obj _ => true

/-- The `{` character. -/
def lbrace : Char := Char.ofNat 123

/-- The `}` character. -/
def rbrace : Char := Char.ofNat 125

/-- Escape one character for a JSON string literal, as `JSON.stringify` does
for the characters that occur in this development. -/
def escChar (c : Char) : String :=
  if c = '\"' then "\\\""
  else if c = '\\' then "\\\\"
  else if c = '\n' then "\\n"
  else if c = '\t' then "\\t"
  else if c = '\r' then "\\r"
  else String.singleton c

/-- Render a string as a quoted JSON string literal. -/
def quoteStr (s : String) : String :=
  "\"" ++ String.join (s.data.map escChar) ++ "\""

mutual

/-- `JSON.stringify` (compact form, as JavaScript produces with no spacing). -/
def jsonStringify : JVal → String
  | .null => "null"
  | .bool true => "true"
  | .bool false => "false"
  | .num n => toString n
  | .str s => quoteStr s
  | .arr items => "[" ++ stringifyList items ++ "]"
  | .obj fields => String.singleton lbrace ++ stringifyFields fields ++ String.singleton rbrace

/-- Serialize array elements, comma separated. -/
def stringifyList : List JVal → String
  | [] => ""
  | [v] => jsonStringify v
  | v :: rest => jsonStringify v ++ "," ++ stringifyList rest

/-- Serialize object fields, comma separated. -/
def stringifyFields : List (String × JVal) → String
  | [] => ""
  | [(k, v)] => quoteStr k ++ ":" ++ jsonStringify v
  | (k, v) :: rest => quoteStr k ++ ":" ++ jsonStringify v ++ "," ++ stringifyFields rest

end

/-- JSON whitespace. -/
def isWsChar (c : Char) : Bool := c = ' ' || c = '\t' || c = '\n' || c = '\r'

/-- Drop leading JSON whitespace. -/
def skipWs : List Char → List Char
  | [] => []
  | c :: rest => if isWsChar c then skipWs rest else c :: rest

/-- Value of a hexadecimal digit. -/
def hexDig (c : Char) : Option Nat :=
  if '0' ≤ c ∧ c ≤ '9' then some (c.toNat - 48)
  else if 'a' ≤ c ∧ c ≤ 'f' then some (c.toNat - 87)
  else if 'A' ≤ c ∧ c ≤ 'F' then some (c.toNat - 55)
  else none

/-- Decimal digit test. -/
def isDigitChar (c : Char) : Bool := '0' ≤ c && c ≤ '9'

/-- Split a longest run of leading decimal digits from the input. -/
def takeDigits : List Char → List Char × List Char
  | [] => ([], [])
  | c :: rest =>
    if isDigitChar c then
      let pr := takeDigits rest
      (c :: pr.1, pr.2)
    else ([], c :: rest)

/-- Numeric value of a digit run. -/
def digitsToNat (ds : List Char) : Nat := ds.foldl (fun a c => a * 10 + (c.toNat - 48)) 0

/-- Consume an expected literal; `none` on mismatch. -/
def dropLit : List Char → List Char → Option (List Char)
  | [], cs => some cs
  | _ :: _, [] => none
  | l :: ls, c :: cs => if c = l then dropLit ls cs else none

/-- Parse the digits of a JSON number (integers only; the app only ever
stores integer numbers — timestamps and status codes). -/
def parseNumAfter (neg : Bool) (cs : List Char) : Option (JVal × List Char) :=
  let pr := takeDigits cs
  if pr.1.isEmpty then none
  else
    let n : Int := digitsToNat pr.1
    let v : JVal := .num (if neg then -n else n)
    match pr.2 with
    | c :: _ => if c = '.' || c = 'e' || c = 'E' then none else some (v, pr.2)
    | [] => some (v, [])

/-- Decode one JSON string escape (the character after a backslash). -/
def escDecode (e : Char) (rest : List Char) : Option (Char × List Char) :=
  if e = '\"' then some ('\"', rest)
  else if e = '\\' then some ('\\', rest)
  else if e = '/' then some ('/', rest)
  else if e = 'b' then some (Char.ofNat 8, rest)
  else if e = 'f' then some (Char.ofNat 12, rest)
  else if e = 'n' then some ('\n', rest)
  else if e = 'r' then some ('\r', rest)
  else if e = 't' then some ('\t', rest)
  else if e = 'u' then
    match rest with
    | h1 :: h2 :: h3 :: h4 :: rest3 =>
      match hexDig h1, hexDig h2, hexDig h3, hexDig h4 with
      | some a, some b, some c, some d =>
          some (Char.ofNat (((a * 16 + b) * 16 + c) * 16 + d), rest3)
      | _, _, _, _ => none
    | _ => none
  else none

/-- Parse the body of a JSON string literal (after the opening quote),
returning the decoded string and the input remaining after the closing
quote. Fuel-indexed for termination. -/
def parseStrBody : Nat → List Char → Option (String × List Char)
  | 0, _ => none
  | fuel + 1, cs =>
    match cs with
    | [] => none
    | c :: rest =>
      if c = '\"' then some ("", rest)
      else if c = '\\' then
        match rest with
        | [] => none
        | e :: rest2 =>
          match escDecode e rest2 with
          | some pr => (parseStrBody fuel pr.2).map (fun qr => (String.singleton pr.1 ++ qr.1, qr.2))
          | none => none
      else (parseStrBody fuel rest).map (fun qr => (String.singleton c ++ qr.1, qr.2))

mutual

/-- Parse one JSON value (fuel-indexed recursive-descent `JSON.parse`). -/
def parseVal : Nat → List Char → Option (JVal × List Char)
  | 0, _ => none
  | fuel + 1, cs =>
    match skipWs cs with
    | [] => none
    | c :: rest =>
      if c = '\"' then (parseStrBody fuel rest).map (fun pr => (JVal.str pr.1, pr.2))
      else if c = 'n' then (dropLit "ull".data rest).map (fun r => (JVal.null, r))
      else if c = 't' then (dropLit "rue".data rest).map (fun r => (JVal.bool true, r))
      else if c = 'f' then (dropLit "alse".data rest).map (fun r => (JVal.bool false, r))
      else if c = '-' then parseNumAfter true rest
      else if isDigitChar c then parseNumAfter false (c :: rest)
      else if c = '[' then
        match skipWs rest with
        | c2 :: rest2 =>
          if c2 = ']' then some (JVal.arr [], rest2)
          else (parseArrItems fuel (c2 :: rest2)).map (fun pr => (JVal.arr pr.1, pr.2))
        | [] => none
      else if c = lbrace then
        match skipWs rest with
        | c2 :: rest2 =>
          if c2 = rbrace then some (JVal.obj [], rest2)
          else (parseObjItems fuel (c2 :: rest2)).map (fun pr => (JVal.obj pr.1, pr.2))
        | [] => none
      else none

/-- Parse the elements of a nonempty JSON array, up to the closing bracket. -/
def parseArrItems : Nat → List Char → Option (List JVal × List Char)
  | 0, _ => none
  | fuel + 1, cs =>
    match parseVal fuel cs with
    | none => none
    | some pr =>
      match skipWs pr.2 with
      | c :: rest =>
        if c = ',' then (parseArrItems fuel rest).map (fun qr => (pr.1 :: qr.1, qr.2))
        else if c = ']' then some ([pr.1], rest)
        else none
      | [] => none

/-- Parse the fields of a nonempty JSON object, up to the closing brace. -/
def parseObjItems : Nat → List Char → Option (List (String × JVal) × List Char)
  | 0, _ => none
  | fuel + 1, cs =>
    match skipWs cs with
    | c :: rest =>
      if c = '\"' then
        match parseStrBody fuel rest with
        | none => none
        | some kr =>
          match skipWs kr.2 with
          | c2 :: r2 =>
            if c2 = ':' then
              match parseVal fuel r2 with
              | none => none
              | some vr =>
                match skipWs vr.2 with
                | c3 :: r4 =>
                  if c3 = ',' then (parseObjItems fuel r4).map (fun qr => ((kr.1, vr.1) :: qr.1, qr.2))
                  else if c3 = rbrace then some ([(kr.1, vr.1)], r4)
                  else none
                | [] => none
            else none
          | [] => none
      else none
    | [] => none

end

/-- `JSON.parse`: parse a complete JSON text; `none` models a thrown
`SyntaxError` (always caught by the app's callers). -/
def jsonParse (s : String) : Option JVal :=
  match parseVal (2 * s.length + 4) s.data with
  | some pr => if skipWs pr.2 = [] then some pr.1 else none
  | none => none

/-- Is `needle` a prefix of `hay`? -/
def leadMatch : List Char → List Char → Bool
  | [], _ => true
  | _ :: _, [] => false
  | a :: as, b :: bs => a == b && leadMatch as bs

/-- Does `needle` occur contiguously anywhere in `hay`? -/
def subMatch (needle : List Char) : List Char → Bool
  | [] => leadMatch needle []
  | c :: rest => leadMatch needle (c :: rest) || subMatch needle rest

/-- JavaScript `s.includes(pat)`. -/
def strContains (s pat : String) : Bool := subMatch pat.data s.data

/-- JavaScript `s.toLowerCase()` (ASCII, which covers all strings the
claims evaluate). -/
def strLower (s : String) : String := ⟨s.data.map Char.toLower⟩

/-- JavaScript `s.trim()`. -/
def trimStr (s : String) : String := ⟨(skipWs ((skipWs s.data).reverse)).reverse⟩


/-! ## Redis sorted-set model

An endpoint's event log `webhook:{uuid}:events` is a Redis sorted set of
(score = timestamp, member = serialized event). It is modelled as the
list of its (score, member) pairs in rank order: ascending by score, ties
broken by member string, which is the order `ZREMRANGEBYRANK` uses. -/

/-- Insert a (score, member) pair at its rank position. -/
def zinsert : List (Nat × String) → Nat → String → List (Nat × String)
  | [], t, m => [(t, m)]
  | (s, x) :: rest, t, m =>
    if t < s ∨ (t = s ∧ m < x) then (t, m) :: (s, x) :: rest
    else (s, x) :: zinsert rest t m

/-- Remove a member from the sorted set (a set holds a member at most once). -/
def zrem1 (zs : List (Nat × String)) (m : String) : List (Nat × String) :=
  zs.filter (fun p => p.2 ≠ m)

/-- `ZADD key {score, member}`: upsert the member with the given score. -/
def zadd (zs : List (Nat × String)) (t : Nat) (m : String) : List (Nat × String) :=
  zinsert (zrem1 zs m) t m

/-- The trim step of `handleWebhook`: `count = ZCARD`; if `count > 50`,
`ZREMRANGEBYRANK key 0 (count - 51)` removes the `count - 50` lowest-ranked
entries, leaving exactly 50. -/
def trimTo50 (zs : List (Nat × String)) : List (Nat × String) :=
  if zs.length > 50 then zs.drop (zs.length - 50) else zs

/-- One capture's store mutation: `ZADD` the event keyed by its timestamp,
then trim the log to the last 50 (route.ts lines 65-78). -/
def captureStep (zs : List (Nat × String)) (e : Nat × String) : List (Nat × String) :=
  trimTo50 (zadd zs e.1 e.2)

/-- The store state after a sequence of captures to one endpoint, starting
from an empty log. -/
def runCaptures (L : List (Nat × String)) : List (Nat × String) :=
  L.foldl captureStep []

/-! ## Settings (src/app/actions/settings.ts) -/

/-- Per-endpoint auto-response configuration (`WebhookSettings`). -/
structure WebhookSettings where
  responseStatus : Int
  responseBody : String
  responseHeaders : List (String × String)
deriving DecidableEq

/-- The JSON value `JSON.stringify`/the Upstash client stores for a
settings record. -/
def settingsToJVal (s : WebhookSettings) : JVal :=
  .obj [("responseStatus", .num s.responseStatus),
        ("responseBody", .str s.responseBody),
        ("responseHeaders", .obj (s.responseHeaders.map (fun p => (p.1, JVal.str p.2))))]

/-- Read a string-valued header record back from its JSON object fields. -/
def headersOfJVal : List (String × JVal) → Option (List (String × String))
  | [] => some []
  | (k, .str v) :: rest => (headersOfJVal rest).map (fun t => (k, v) :: t)
  | _ => none

/-- Interpret a stored JSON value at the `WebhookSettings` type. The
TypeScript `settings as WebhookSettings` cast is unchecked; this decode
agrees with it on every value `saveWebhookSettings` can produce. -/
def settingsOfJVal : JVal → Option WebhookSettings
  | .obj [("responseStatus", .num st), ("responseBody", .str b), ("responseHeaders", .obj hs)] =>
      (headersOfJVal hs).map (fun h => ⟨st, b, h⟩)
  | _ => none

/-- Outcome of the `redis.get` in `getWebhookSettings`: the call threw, the
key was absent (`null`), or a value was returned. -/
inductive RRead where
  | err : RRead
  | missing : RRead
  | val (v : JVal) : RRead

/-- `getWebhookSettings`, given the outcome of its Redis read: a thrown
read is caught and returns `null`; a falsy value returns `null`; a string
value goes through `JSON.parse` (a parse error is caught, returning
`null`); any other value is returned as settings via the unchecked cast. -/
def getWebhookSettingsR : RRead → Option WebhookSettings
  | .err => none
  | .missing => none
  | .val v =>
    if truthy v then
      match v with
      | .str s => (jsonParse s).bind settingsOfJVal
      | _ => settingsOfJVal v
    else none

/-- The Redis key for an endpoint's settings record. -/
def settingsKey (uuid : String) : String := "webhook:" ++ uuid ++ ":settings"

/-- The Redis string keyspace, as an association list. -/
def rset (st : List (String × JVal)) (k : String) (v : JVal) : List (String × JVal) :=
  (k, v) :: st.filter (fun p => p.1 ≠ k)

/-- `redis.get` on the modelled keyspace. -/
def rget (st : List (String × JVal)) (k : String) : Option JVal :=
  (st.find? (fun p => p.1 = k)).map Prod.snd

/-- `saveWebhookSettings`: `redis.set(key, JSON.stringify(settings))`; the
Upstash client hands the JSON value back on a later read. -/
def saveWebhookSettings (st : List (String × JVal)) (uuid : String) (s : WebhookSettings) :
    List (String × JVal) :=
  rset st (settingsKey uuid) (settingsToJVal s)

/-- `getWebhookSettings` against the modelled keyspace (read succeeds). -/
def getWebhookSettings (st : List (String × JVal)) (uuid : String) : Option WebhookSettings :=
  getWebhookSettingsR (match rget st (settingsKey uuid) with
                       | none => RRead.missing
                       | some v => RRead.val v)

/-! ## Capture endpoint responses (src/app/api/webhook/[uuid]/route.ts) -/

/-- An HTTP response as built by `NextResponse.json`. -/
structure HttpResponse where
  status : Int
  headers : List (String × String)
  body : JVal
deriving DecidableEq

/-- The default header set of `NextResponse.json`. -/
def jsonCT : List (String × String) := [("Content-Type", "application/json")]

/-- The default acknowledgement: `200 {success: true, message: "Webhook received"}`. -/
def defaultResponse : HttpResponse :=
  ⟨200, jsonCT, .obj [("success", .bool true), ("message", .str "Webhook received")]⟩

/-- The top-level catch response: `500 {success: false, error: "Internal server error"}`. -/
def errorResponse : HttpResponse :=
  ⟨500, jsonCT, .obj [("success", .bool false), ("error", .str "Internal server error")]⟩

/-- JavaScript object-literal update: overwrite the value in place if the
key exists, else append the pair. -/
def upsertH (l : List (String × String)) (k v : String) : List (String × String) :=
  if l.any (fun p => p.1 = k) then l.map (fun p => if p.1 = k then (k, v) else p)
  else l ++ [(k, v)]

/-- The object spread `{...base, ...ext}`: fields of `ext` override or
extend `base`. -/
def spreadH (base ext : List (String × String)) : List (String × String) :=
  ext.foldl (fun acc p => upsertH acc p.1 p.2) base

/-- JavaScript property read `record[k]` on a string-valued record. -/
def lookupH (l : List (String × String)) (k : String) : Option String :=
  (l.find? (fun p => p.1 = k)).map Prod.snd

/-- The custom response built when settings are present (route.ts lines
86-103): headers are `{"Content-Type": "application/json",
...settings.responseHeaders}`; the body is `JSON.parse(settings.responseBody)`
falling back to the literal string on a parse error; the status is
`settings.responseStatus`. -/
def settingsResponse (s : WebhookSettings) : HttpResponse :=
  { status := s.responseStatus
    headers := spreadH jsonCT s.responseHeaders
    body := match jsonParse s.responseBody with
            | some v => v
            | none => .str s.responseBody }

/-- `handleWebhook` from the store mutation onward: `ZADD` + trim, then the
realtime emit (`emitThrows` models the awaited `emit` rejecting, which the
surrounding `try` turns into the 500 catch response), then the settings
read and response synthesis. Returns the HTTP response and the endpoint's
event log after the request. -/
def handleWebhook (zs : List (Nat × String)) (timestamp : Nat) (member : String)
    (emitThrows : Bool) (settingsRead : RRead) : HttpResponse × List (Nat × String) :=
  let zs' := captureStep zs (timestamp, member)
  if emitThrows then (errorResponse, zs')
  else
    match getWebhookSettingsR settingsRead with
    | some s => (settingsResponse s, zs')
    | none => (defaultResponse, zs')

/-! ## Event normalization: body parsing (route.ts lines 29-49) -/

/-- Percent-decode one component as `URLSearchParams` does (`+` is space;
a malformed escape is kept literally). -/
def decodeURIComp : List Char → List Char
  | [] => []
  | '+' :: rest => ' ' :: decodeURIComp rest
  | '%' :: h1 :: h2 :: rest2 =>
    (match hexDig h1, hexDig h2 with
     | some a, some b => Char.ofNat (a * 16 + b) :: decodeURIComp rest2
     | _, _ => '%' :: decodeURIComp (h1 :: h2 :: rest2))
  | c :: rest => c :: decodeURIComp rest

/-- `Object.fromEntries`: later duplicate keys overwrite earlier ones. -/
def fromEntries (ps : List (String × String)) : List (String × String) :=
  ps.foldl (fun acc p => upsertH acc p.1 p.2) []

/-- Split on a separator character (the groups between separators). -/
def splitOnChar (sep : Char) : List Char → List (List Char)
  | [] => [[]]
  | c :: rest =>
    if c = sep then [] :: splitOnChar sep rest
    else
      match splitOnChar sep rest with
      | [] => [[c]]
      | g :: gs => (c :: g) :: gs

/-- Split a form field at its first `=`: the key, and the value when an
`=` is present. -/
def splitFirstEq : List Char → List Char × Option (List Char)
  | [] => ([], none)
  | c :: rest =>
    if c = '=' then ([], some rest)
    else
      let pr := splitFirstEq rest
      (c :: pr.1, pr.2)

/-- Parse an `application/x-www-form-urlencoded` payload into the flat
string-keyed mapping `Object.fromEntries(await request.formData())` yields. -/
def parseForm (payload : String) : List (String × String) :=
  fromEntries (((splitOnChar '&' payload.data).filter (fun p => p ≠ [])).map (fun part =>
    let pr := splitFirstEq part
    (⟨decodeURIComp pr.1⟩, ⟨decodeURIComp (pr.2.getD [])⟩)))

/-- The body-parsing policy of `handleWebhook` (route.ts lines 29-49): the
declared content type is tested with `includes` in priority order; the
whole block is wrapped in a `try` whose catch records a null body, so a
parse failure never escapes. -/
def parseBody (contentType : String) (payload : String) : JVal :=
  if strContains contentType "application/json" then
    match jsonParse payload with
    | some v => v
    | none => .null
  else if strContains contentType "application/x-www-form-urlencoded" then
    .obj ((parseForm payload).map (fun p => (p.1, JVal.str p.2)))
  else if strContains contentType "text/" then
    .str payload
  else
    if payload = "" then .null else .str payload


/-! ## Webhook events and viewer-side actions
(src/unnamed/part_000: app/actions/webhook.ts; src/app/components/inbox.tsx) -/

/-- One captured inbound request (`WebhookEvent`). -/
structure WebhookEvent where
  id : String
  uuid : String
  method : String
  url : String
  headers : List (String × String)
  body : JVal
  query : List (String × String)
  timestamp : Nat
deriving DecidableEq

/-- An endpoint's stored log as typed events, in rank (ascending) order;
the Upstash client hands members back deserialized. -/
def getWebhookEventsM (log : List WebhookEvent) : List WebhookEvent :=
  log.reverse

/-- `deleteWebhookEvent(uuid, eventId)`: scan the log for the first event
whose `id` equals `eventId`; if found, `ZREM` that member and return
`true`; otherwise return `false` (part_000 lines 184-205). -/
def deleteWebhookEvent (log : List WebhookEvent) (eventId : String) :
    Bool × List WebhookEvent :=
  match log.find? (fun e => e.id == eventId) with
  | some e => (true, log.filter (fun x => !(x == e)))
  | none => (false, log)

/-- The inbox's realtime `onData` callback: prepend the pushed event to
the displayed log if and only if its `uuid` matches the selection
(inbox.tsx lines 36-50). -/
def inboxOnData (uuid : String) (events : List WebhookEvent) (data : WebhookEvent) :
    List WebhookEvent :=
  if data.uuid == uuid then data :: events else events

/-- The displayed log after one historical bootstrap (`loadEvents`) and a
sequence of live pushes, in arrival order. -/
def inboxMerge (uuid : String) (initialEvents : List WebhookEvent)
    (pushes : List WebhookEvent) : List WebhookEvent :=
  pushes.foldl (inboxOnData uuid) initialEvents

/-- Serialize a string-valued record (`headers`, `query`) the way
`JSON.stringify` sees it. -/
def headersJ (hs : List (String × String)) : JVal :=
  .obj (hs.map (fun p => (p.1, JVal.str p.2)))

/-- The inbox search predicate over one event, given the lowercased query
(inbox.tsx lines 119-146): method, url, stringified headers, stringified
query params, the body (only when truthy: `if (event.body)`), and the id. -/
def eventMatches (q : String) (e : WebhookEvent) : Bool :=
  strContains (strLower e.method) q
  || strContains (strLower e.url) q
  || strContains (strLower (jsonStringify (headersJ e.headers))) q
  || strContains (strLower (jsonStringify (headersJ e.query))) q
  || (truthy e.body &&
      strContains (match e.body with
                   | .str s => strLower s
                   | b => strLower (jsonStringify b)) q)
  || strContains (strLower e.id) q

/-- `filteredEvents` (inbox.tsx lines 112-147): the whole list when the
trimmed query is empty, else the events matching the lowercased query. -/
def filteredEvents (events : List WebhookEvent) (searchQuery : String) :
    List WebhookEvent :=
  if trimStr searchQuery = "" then events
  else events.filter (eventMatches (strLower searchQuery))

/-! ## Spec-side definitions for refinement claims

These two families of definitions are written from the words of the
spec/claims (not from the source); each is compared against the
corresponding source-derived definition. -/

/-- Body selection as claim C2 words it: the third rule fires when the
declared type STARTS WITH `text/`. -/
def claimBodyC2 (contentType : String) (payload : String) : JVal :=
  if strContains contentType "application/json" then
    match jsonParse payload with
    | some v => v
    | none => .null
  else if strContains contentType "application/x-www-form-urlencoded" then
    .obj ((parseForm payload).map (fun p => (p.1, JVal.str p.2)))
  else if leadMatch "text/".data contentType.data then
    .str payload
  else
    if payload = "" then .null else .str payload

/-- Body selection as amended: identical to claim C2 except that the third
rule fires when the declared type CONTAINS `text/`. -/
def amendedBodyC2 (contentType : String) (payload : String) : JVal :=
  if strContains contentType "application/json" then
    match jsonParse payload with
    | some v => v
    | none => .null
  else if strContains contentType "application/x-www-form-urlencoded" then
    .obj ((parseForm payload).map (fun p => (p.1, JVal.str p.2)))
  else if strContains contentType "text/" then
    .str payload
  else
    if payload = "" then .null else .str payload

/-- The search predicate as claim C9 words it: the text appears
case-insensitively in the method, url, serialized headers, serialized
query, or serialized/raw body — and nowhere else (no id clause, no
truthiness guard on the body). Takes the lowercased query. -/
def claimMatchesC9 (q : String) (e : WebhookEvent) : Bool :=
  strContains (strLower e.method) q
  || strContains (strLower e.url) q
  || strContains (strLower (jsonStringify (headersJ e.headers))) q
  || strContains (strLower (jsonStringify (headersJ e.query))) q
  || strContains (match e.body with
                  | .str s => strLower s
                  | b => strLower (jsonStringify b)) q

/-- The search predicate as amended: claim C9's clauses, the body clause
restricted to truthy bodies, plus a clause for the event id. Takes the
lowercased query. -/
def amendedMatchesC9 (q : String) (e : WebhookEvent) : Bool :=
  strContains (strLower e.method) q
  || strContains (strLower e.url) q
  || strContains (strLower (jsonStringify (headersJ e.headers))) q
  || strContains (strLower (jsonStringify (headersJ e.query))) q
  || (truthy e.body &&
      strContains (match e.body with
                   | .str s => strLower s
                   | b => strLower (jsonStringify b)) q)
  || strContains (strLower e.id) q

/-! ## Concrete inputs used by witnesses and counterexamples -/

/-- A sequence of 51 sequential captures with strictly increasing
timestamps and distinct members. -/
def c1List : List (Nat × String) := (List.range 51).map (fun i => (i, "m" ++ toString i))

/-- A concrete settings record with a JSON-parsable body and a
`Content-Type` override. -/
def c3Settings : WebhookSettings :=
  ⟨201, "[1,true]", [("X-Test", "1"), ("Content-Type", "text/plain")]⟩

/-- A concrete settings record with a non-JSON body. -/
def c4Settings : WebhookSettings := ⟨201, "ok", []⟩

/-- A stored event with id `E1`. -/
def c7Event1 : WebhookEvent := ⟨"E1", "u", "POST", "http://h/1", [], .null, [], 1⟩

/-- A stored event with id `E2`. -/
def c7Event2 : WebhookEvent := ⟨"E2", "u", "GET", "http://h/2", [], .str "b", [], 2⟩

/-- An event that is both in the bootstrap result and delivered as a live
push. -/
def c8Event : WebhookEvent := ⟨"E1", "u", "POST", "http://h", [], .null, [], 5⟩

/-- An event whose id contains the search text but whose method, url,
headers, query and body do not. -/
def c9Event : WebhookEvent := ⟨"needle-1", "u", "GET", "http://h/x", [], .null, [], 3⟩

/-! ## Helper lemmas: the sorted set under in-order insertion -/

theorem zrem1_eq_self {zs : List (Nat × String)} {m : String}
    (h : m ∉ zs.map Prod.snd) : zrem1 zs m = zs := by
  apply List.filter_eq_self.mpr
  intro p hp
  simp only [ne_eq, decide_eq_true_eq]
  intro hpm
  exact h (hpm ▸ List.mem_map_of_mem Prod.snd hp)

theorem zinsert_append {zs : List (Nat × String)} {t : Nat} {m : String}
    (h : ∀ p ∈ zs, p.1 < t) : zinsert zs t m = zs ++ [(t, m)] := by
  induction zs with
  | nil => rfl
  | cons p rest ih =>
    obtain ⟨s, x⟩ := p
    have hs : s < t := h (s, x) (List.mem_cons_self _ _)
    have hrec := ih (fun q hq => h q (List.mem_cons_of_mem _ hq))
    simp only [zinsert]
    rw [if_neg, hrec, List.cons_append]
    rintro (h1 | ⟨h2, _⟩) <;> omega

theorem zadd_append {zs : List (Nat × String)} {t : Nat} {m : String}
    (h1 : ∀ p ∈ zs, p.1 < t) (h2 : m ∉ zs.map Prod.snd) :
    zadd zs t m = zs ++ [(t, m)] := by
  rw [zadd, zrem1_eq_self h2, zinsert_append h1]

theorem runCaptures_drop (L : List (Nat × String)) :
    L.Pairwise (fun a b => a.1 < b.1) → (L.map Prod.snd).Nodup →
    runCaptures L = L.drop (L.length - 50) := by
  induction L using List.reverseRecOn with
  | nil => intro _ _; rfl
  | append_singleton L' x ih =>
    intro hp hn
    have hsplit := List.pairwise_append.mp hp
    have hcross : ∀ a ∈ L', a.1 < x.1 := fun a ha => hsplit.2.2 a ha x (by simp)
    rw [List.map_append] at hn
    have hnsplit := List.nodup_append.mp hn
    have hx2 : x.2 ∉ L'.map Prod.snd := fun hmem => hnsplit.2.2 hmem (by simp)
    rw [runCaptures, List.foldl_append, List.foldl_cons, List.foldl_nil, ← runCaptures,
      ih hsplit.1 hnsplit.1]
    have h1 : ∀ p ∈ L'.drop (L'.length - 50), p.1 < x.1 :=
      fun p hpmem => hcross p (List.drop_subset _ _ hpmem)
    have h2 : x.2 ∉ (L'.drop (L'.length - 50)).map Prod.snd :=
      fun hmem => hx2 (List.map_subset _ (List.drop_subset _ _) hmem)
    rw [captureStep, zadd_append h1 h2, Prod.mk.eta]
    by_cases hlen : L'.length ≤ 49
    · have hd0 : L'.length - 50 = 0 := by omega
      rw [hd0, List.drop_zero, trimTo50,
        if_neg (by simp only [List.length_append, List.length_singleton]; omega)]
      have hz : (L' ++ [x]).length - 50 = 0 := by
        simp only [List.length_append, List.length_singleton]; omega
      rw [hz, List.drop_zero]
    · push_neg at hlen
      have hlen' : 50 ≤ L'.length := by omega
      have hacclen : (L'.drop (L'.length - 50)).length = 50 := by
        rw [List.length_drop]; omega
      rw [trimTo50, if_pos (by simp only [List.length_append, hacclen, List.length_singleton]; omega)]
      have hone : (L'.drop (L'.length - 50) ++ [x]).length - 50 = 1 := by
        simp only [List.length_append, hacclen, List.length_singleton]
      rw [hone, List.drop_append_of_le_length (by omega), List.drop_drop]
      have hidx2 : (L' ++ [x]).length - 50 = L'.length + 1 - 50 := by
        simp only [List.length_append, List.length_singleton]
      rw [hidx2, List.drop_append_of_le_length (by omega)]
      have : L'.length - 50 + 1 = L'.length + 1 - 50 := by omega
      rw [this]

/-- C1: after any N ≥ 51 sequential captures to one endpoint (strictly
increasing capture timestamps, fresh event members, no concurrent
writers), the stored log holds exactly 50 entries, namely the 50 most
recently captured events in timestamp order — the lowest-timestamp
entries were evicted first. -/
theorem capture_capacity_invariant (L : List (Nat × String))
    (hlen : 51 ≤ L.length)
    (hp : L.Pairwise (fun a b => a.1 < b.1))
    (hn : (L.map Prod.snd).Nodup) :
    (runCaptures L).length = 50 ∧ runCaptures L = L.drop (L.length - 50) := by
  have h := runCaptures_drop L hp hn
  refine ⟨?_, h⟩
  rw [h, List.length_drop]
  omega

/-- Witness for C1 at a concrete 51-capture sequence. -/
theorem capture_capacity_invariant_witness :
    (runCaptures c1List).length = 50 ∧ runCaptures c1List = c1List.drop (c1List.length - 50) :=
  capture_capacity_invariant c1List (by decide) (by decide) (by decide)

/-- C2 counterexample: a declared type that contains `text/` without
starting with it, with an empty payload. The code's `includes` check
captures the raw text `""`, while the claim's `starts with` rule falls to
the final branch and yields null. -/
theorem body_policy_counterexample :
    parseBody "xtext/plain" "" = JVal.str ""
    ∧ claimBodyC2 "xtext/plain" "" = JVal.null
    ∧ parseBody "xtext/plain" "" ≠ claimBodyC2 "xtext/plain" "" := by decide

/-- C2 (amended): the normalized body is selected by the declared content
type in priority order — contains `application/json` (parsed JSON, null on
parse failure), contains `application/x-www-form-urlencoded` (flat
string-keyed mapping), CONTAINS `text/` (raw text), otherwise the payload
read as text with an empty payload yielding null. The selection is total:
a parse failure yields a null body and never propagates. -/
theorem body_policy_amended :
    ∀ contentType payload, parseBody contentType payload = amendedBodyC2 contentType payload :=
  fun _ _ => rfl

/-- C4 counterexample: with settings present, a rejecting `emit` makes the
request return the generic 500 error response, not the step-5 configured
response (and not the default response). -/
theorem publish_failure_counterexample :
    (handleWebhook [] 1 "m" true (RRead.val (settingsToJVal c4Settings))).1 = errorResponse
    ∧ errorResponse ≠ settingsResponse c4Settings
    ∧ errorResponse ≠ defaultResponse := by decide

/-- C4 (amended): a broadcast publish failure is fatal to the response:
the awaited `emit` rejection propagates to the top-level catch, so the
caller receives `500 {success: false, error: "Internal server error"}`
instead of the step-5 response — though the event was already stored and
trimmed before the publish. -/
theorem publish_failure_propagates :
    ∀ zs t m read, handleWebhook zs t m true read = (errorResponse, captureStep zs (t, m)) :=
  fun _ _ _ _ => rfl

/-- C5: a capture whose settings read finds no record, or whose settings
read fails (the error is caught inside `getWebhookSettings`, which then
returns null), responds with the default acknowledgement: status 200 and
body `{success: true, message: "Webhook received"}`. -/
theorem default_response_when_settings_absent :
    (∀ zs t m, handleWebhook zs t m false RRead.missing = (defaultResponse, captureStep zs (t, m)))
    ∧ (∀ zs t m, handleWebhook zs t m false RRead.err = (defaultResponse, captureStep zs (t, m)))
    ∧ defaultResponse.status = 200
    ∧ defaultResponse.body
        = JVal.obj [("success", JVal.bool true), ("message", JVal.str "Webhook received")] :=
  ⟨fun _ _ _ => rfl, fun _ _ _ => rfl, rfl, rfl⟩

/-- C8 counterexample: an event present in the bootstrap result and then
delivered as a live push appears twice in the displayed log — the merge
does not de-duplicate by id. -/
theorem inbox_dedup_counterexample :
    inboxMerge "u" [c8Event] [c8Event] = [c8Event, c8Event]
    ∧ ¬ ((inboxMerge "u" [c8Event] [c8Event]).map WebhookEvent.id).Nodup := by
  exact ⟨by decide, by decide⟩

/-- C8 (amended): the displayed log is exactly the live pushes whose
`uuid` matches the selected endpoint, most recent first, prepended to the
bootstrap result — with no de-duplication, so a pushed event whose id is
already in the bootstrap result appears twice. -/
theorem inbox_merge_amended :
    ∀ uuid initialEvents pushes,
      inboxMerge uuid initialEvents pushes
        = (pushes.filter (fun e => e.uuid == uuid)).reverse ++ initialEvents := by
  intro uuid initialEvents pushes
  induction pushes generalizing initialEvents with
  | nil => rfl
  | cons p ps ih =>
    have hstep : inboxMerge uuid initialEvents (p :: ps)
        = inboxMerge uuid (inboxOnData uuid initialEvents p) ps := rfl
    rw [hstep, ih]
    by_cases hp : (p.uuid == uuid) = true
    · simp [List.filter_cons, hp, inboxOnData, List.append_assoc]
    · simp [List.filter_cons, hp, inboxOnData]

/-! ## Helper lemmas: record lookup under JavaScript object spread -/

theorem lookupH_cons (a b : String) (l : List (String × String)) (k : String) :
    lookupH ((a, b) :: l) k = if a = k then some b else lookupH l k := by
  by_cases h : a = k <;> simp [lookupH, List.find?, h]

theorem lookupH_eq_none_of_not_mem {l : List (String × String)} {k : String}
    (h : k ∉ l.map Prod.fst) : lookupH l k = none := by
  induction l with
  | nil => rfl
  | cons p rest ih =>
    obtain ⟨a, b⟩ := p
    have ha : a ≠ k := by
      intro hak
      exact h (by simp [hak])
    rw [lookupH_cons, if_neg ha, ih (fun hm => h (by simp [hm]))]

theorem lookupH_map_subst_ne {l : List (String × String)} {kp v k : String} (hk : k ≠ kp) :
    lookupH (l.map (fun p => if p.1 = kp then (kp, v) else p)) k = lookupH l k := by
  induction l with
  | nil => rfl
  | cons p rest ih =>
    obtain ⟨a, b⟩ := p
    by_cases hp : a = kp
    · subst hp
      simp only [List.map_cons, if_pos rfl]
      rw [lookupH_cons, lookupH_cons, if_neg (fun h => hk h.symm), if_neg (fun h => hk h.symm), ih]
    · simp only [List.map_cons, if_neg hp]
      rw [lookupH_cons, lookupH_cons, ih]

theorem lookupH_map_subst_eq {l : List (String × String)} {kp v : String}
    (hany : l.any (fun p => p.1 = kp) = true) :
    lookupH (l.map (fun p => if p.1 = kp then (kp, v) else p)) kp = some v := by
  induction l with
  | nil => simp at hany
  | cons p rest ih =>
    obtain ⟨a, b⟩ := p
    by_cases hp : a = kp
    · have hhead : (fun p => if p.1 = kp then (kp, v) else p) (a, b) = (kp, v) := by simp [hp]
      simp only [List.map_cons, hhead]
      rw [lookupH_cons, if_pos rfl]
    · have hany' : rest.any (fun p => p.1 = kp) = true := by
        simpa [List.any_cons, hp] using hany
      simp only [List.map_cons, if_neg hp]
      rw [lookupH_cons, if_neg hp, ih hany']

theorem lookupH_append_single (l : List (String × String)) (kp v k : String) :
    lookupH (l ++ [(kp, v)]) k
      = (match lookupH l k with
         | some w => some w
         | none => if kp = k then some v else none) := by
  induction l with
  | nil =>
    show lookupH [(kp, v)] k = _
    rw [lookupH_cons]
    rfl
  | cons p rest ih =>
    obtain ⟨a, b⟩ := p
    rw [List.cons_append, lookupH_cons, lookupH_cons]
    by_cases ha : a = k <;> simp [ha, ih]

theorem lookupH_upsertH (l : List (String × String)) (kp v k : String) :
    lookupH (upsertH l kp v) k = if k = kp then some v else lookupH l k := by
  unfold upsertH
  by_cases hany : (l.any (fun p => p.1 = kp)) = true
  · rw [if_pos hany]
    by_cases hk : k = kp
    · subst hk
      rw [if_pos rfl, lookupH_map_subst_eq hany]
    · rw [if_neg hk, lookupH_map_subst_ne hk]
  · rw [if_neg hany, lookupH_append_single]
    have hnotin : kp ∉ l.map Prod.fst := by
      intro hm
      obtain ⟨p, hp, hpk⟩ := List.mem_map.mp hm
      exact hany (List.any_eq_true.mpr ⟨p, hp, by simp [hpk]⟩)
    by_cases hk : k = kp
    · subst hk
      rw [lookupH_eq_none_of_not_mem hnotin]
    · rw [if_neg hk]
      rcases hc : lookupH l k with _ | w
      · rw [if_neg (fun h => hk h.symm)]
      · rfl

theorem lookupH_spreadH (ext : List (String × String)) :
    ∀ (base : List (String × String)) (k : String), (ext.map Prod.fst).Nodup →
      lookupH (spreadH base ext)
        k = (match lookupH ext k with
             | some v => some v
             | none => lookupH base k) := by
  induction ext with
  | nil => intro base k _; rfl
  | cons p extr ih =>
    intro base k hnd
    obtain ⟨k0, v0⟩ := p
    rw [List.map_cons] at hnd
    have hnd' := (List.nodup_cons.mp hnd).2
    have hk0 : k0 ∉ extr.map Prod.fst := (List.nodup_cons.mp hnd).1
    have hstep : spreadH base ((k0, v0) :: extr) = spreadH (upsertH base k0 v0) extr := rfl
    rw [hstep, ih _ k hnd', lookupH_cons]
    by_cases hk : k0 = k
    · rw [if_pos hk]
      have hnone : lookupH extr k = none :=
        lookupH_eq_none_of_not_mem (by rw [← hk]; exact hk0)
      rw [hnone]
      show lookupH (upsertH base k0 v0) k = some v0
      rw [lookupH_upsertH, if_pos hk.symm]
    · rw [if_neg hk]
      rcases hc : lookupH extr k with _ | v
      · show lookupH (upsertH base k0 v0) k = lookupH base k
        rw [lookupH_upsertH, if_neg (fun h => hk h.symm)]
      · rfl

/-- C3: when a settings record is present (and the publish step does not
throw), the response status is the configured status; each response header
is the configured value when one is configured, else the default
`Content-Type: application/json`; and the body is the configured
`responseBody` parsed as JSON when it is valid JSON text, else the literal
string. -/
theorem settings_response_contract (s : WebhookSettings)
    (hnd : (s.responseHeaders.map Prod.fst).Nodup) :
    (∀ zs t m read, getWebhookSettingsR read = some s →
        (handleWebhook zs t m false read).1 = settingsResponse s)
    ∧ (settingsResponse s).status = s.responseStatus
    ∧ (∀ k, lookupH (settingsResponse s).headers k
        = (match lookupH s.responseHeaders k with
           | some v => some v
           | none => if k = "Content-Type" then some "application/json" else none))
    ∧ (∀ v, jsonParse s.responseBody = some v → (settingsResponse s).body = v)
    ∧ (jsonParse s.responseBody = none → (settingsResponse s).body = JVal.str s.responseBody) := by
  refine ⟨?_, rfl, ?_, ?_, ?_⟩
  · intro zs t m read hread
    simp [handleWebhook, hread]
  · intro k
    have h := lookupH_spreadH s.responseHeaders jsonCT k hnd
    rw [show (settingsResponse s).headers = spreadH jsonCT s.responseHeaders from rfl, h]
    rcases hc : lookupH s.responseHeaders k with _ | v
    · by_cases hk : k = "Content-Type"
      · subst hk
        simp [jsonCT, lookupH_cons]
      · have hne : ("Content-Type" : String) ≠ k := fun h => hk h.symm
        simp [jsonCT, lookupH_cons, hk, hne, lookupH]
    · rfl
  · intro v hv
    simp [settingsResponse, hv]
  · intro hv
    simp [settingsResponse, hv]

/-- Witness for C3 at a concrete settings record: status 201, a
configured header, an overridden `Content-Type`, and a JSON-parsed body. -/
theorem settings_response_contract_witness :
    (handleWebhook [] 1 "m" false (RRead.val (settingsToJVal c3Settings))).1
        = settingsResponse c3Settings
    ∧ (settingsResponse c3Settings).status = 201
    ∧ lookupH (settingsResponse c3Settings).headers "X-Test" = some "1"
    ∧ lookupH (settingsResponse c3Settings).headers "Content-Type" = some "text/plain"
    ∧ (settingsResponse c3Settings).body = JVal.arr [JVal.num 1, JVal.bool true] := by
  have h := settings_response_contract c3Settings (by decide)
  refine ⟨h.1 [] 1 "m" _ (by decide), h.2.1, ?_, ?_, ?_⟩
  · exact (h.2.2.1 "X-Test").trans (by decide)
  · exact (h.2.2.1 "Content-Type").trans (by decide)
  · exact h.2.2.2.1 _ (by decide)

/-! ## Helper lemmas: settings serialization round trip -/

theorem headersOfJVal_map (hs : List (String × String)) :
    headersOfJVal (hs.map (fun p => (p.1, JVal.str p.2))) = some hs := by
  induction hs with
  | nil => rfl
  | cons p rest ih =>
    obtain ⟨a, b⟩ := p
    simp [headersOfJVal, ih]

theorem settingsOfJVal_roundtrip (s : WebhookSettings) :
    settingsOfJVal (settingsToJVal s) = some s := by
  obtain ⟨st, b, hs⟩ := s
  simp [settingsToJVal, settingsOfJVal, headersOfJVal_map]

theorem getWebhookSettingsR_saved (s : WebhookSettings) :
    getWebhookSettingsR (RRead.val (settingsToJVal s)) = some s := by
  have h1 : getWebhookSettingsR (RRead.val (settingsToJVal s))
      = settingsOfJVal (settingsToJVal s) := rfl
  rw [h1, settingsOfJVal_roundtrip]

/-- C6: saving settings for an endpoint and reading them back returns a
value equal to what was saved, for any prior store contents; reading the
settings of an endpoint that was never saved returns absent. -/
theorem settings_save_get_roundtrip :
    (∀ st uuid s, getWebhookSettings (saveWebhookSettings st uuid s) uuid = some s)
    ∧ (∀ uuid, getWebhookSettings [] uuid = none) := by
  constructor
  · intro st uuid s
    have hfind : ((settingsKey uuid, settingsToJVal s)
          :: st.filter (fun p => p.1 ≠ settingsKey uuid)).find?
            (fun p => p.1 = settingsKey uuid)
        = some (settingsKey uuid, settingsToJVal s) := by
      simp [List.find?]
    have hget : rget (saveWebhookSettings st uuid s) (settingsKey uuid)
        = some (settingsToJVal s) := by
      simp [rget, saveWebhookSettings, rset, hfind]
    simp [getWebhookSettings, hget, getWebhookSettingsR_saved]
  · intro uuid
    rfl

/-! ## C7: delete-one over the stored log -/

/-- C7: with ids unique in the log (the capture path generates a fresh
uuid per event), `deleteWebhookEvent` returns true exactly when some
stored event has the requested id, removes exactly that event, leaves
every other entry unchanged (a missing id leaves the log unchanged and
returns false, without error), and the deleted id is absent from a
subsequent history fetch. -/
theorem delete_event_contract (log : List WebhookEvent) (eid : String)
    (hnd : (log.map WebhookEvent.id).Nodup) :
    deleteWebhookEvent log eid
      = (log.any (fun e => e.id == eid), log.filter (fun e => !(e.id == eid)))
    ∧ ∀ x ∈ getWebhookEventsM (deleteWebhookEvent log eid).2, x.id ≠ eid := by
  have hinj := List.inj_on_of_nodup_map hnd
  have hmain : deleteWebhookEvent log eid
      = (log.any (fun e => e.id == eid), log.filter (fun e => !(e.id == eid))) := by
    unfold deleteWebhookEvent
    rcases hfind : log.find? (fun e => e.id == eid) with _ | e
    · have hall : ∀ x ∈ log, ¬((x.id == eid) = true) := fun x hx =>
        by simpa using List.find?_eq_none.mp hfind x hx
      have hany : log.any (fun e => e.id == eid) = false :=
        List.any_eq_false.mpr (fun x hx => hall x hx)
      have hfilt : log.filter (fun e => !(e.id == eid)) = log :=
        List.filter_eq_self.mpr (fun x hx => by simpa using hall x hx)
      rw [hfind, hany, hfilt]
    · have hpe := List.find?_some hfind
      have hmem : e ∈ log := List.mem_of_find?_eq_some hfind
      have heid : e.id = eid := by simpa using hpe
      have hany : log.any (fun e => e.id == eid) = true :=
        List.any_eq_true.mpr ⟨e, hmem, hpe⟩
      have hfilt : log.filter (fun x => !(x == e)) = log.filter (fun x => !(x.id == eid)) := by
        apply List.filter_congr
        intro x hx
        by_cases hxe : x = e
        · subst hxe
          simp [heid]
        · have hxid : x.id ≠ eid := fun hxid =>
            hxe (hinj hx hmem (by rw [hxid, heid]))
          simp [hxe, hxid]
      rw [hfind]
      show (true, log.filter (fun x => !(x == e))) = _
      rw [hany, hfilt]
  refine ⟨hmain, ?_⟩
  intro x hx
  rw [hmain] at hx
  simp only [getWebhookEventsM, List.mem_reverse] at hx
  simpa using List.of_mem_filter hx

/-- Witness for C7: deleting the present id `E1` removes exactly that
event and returns true; deleting the absent id `EX` returns false and
leaves the log unchanged; the fetched log no longer contains `E1`. -/
theorem delete_event_contract_witness :
    deleteWebhookEvent [c7Event1, c7Event2] "E1" = (true, [c7Event2])
    ∧ deleteWebhookEvent [c7Event1, c7Event2] "EX" = (false, [c7Event1, c7Event2])
    ∧ ∀ x ∈ getWebhookEventsM (deleteWebhookEvent [c7Event1, c7Event2] "E1").2, x.id ≠ "E1" := by
  have h1 := delete_event_contract [c7Event1, c7Event2] "E1" (by decide)
  have h2 := delete_event_contract [c7Event1, c7Event2] "EX" (by decide)
  exact ⟨h1.1.trans (by decide), h2.1.trans (by decide), h1.2⟩

/-- C9 counterexample: an event whose id contains the search text while
its method, url, headers, query and body do not. The code retains it; the
claim's predicate (which does not search the id) discards it. -/
theorem search_filter_counterexample :
    filteredEvents [c9Event] "needle" = [c9Event]
    ∧ [c9Event].filter (claimMatchesC9 (strLower "needle")) = [] := by decide

/-- C9 (amended): for a search text with nonempty trim, the displayed log
is exactly the events in which the lowercased text appears in the method,
the url, the serialized headers, the serialized query, the serialized/raw
body WHEN THE BODY IS TRUTHY, or the event id; the filter is a pure view —
its result is a sublist of the underlying event list, which it does not
modify. -/
theorem search_filter_amended (events : List WebhookEvent) (q : String)
    (h : trimStr q ≠ "") :
    filteredEvents events q = events.filter (amendedMatchesC9 (strLower q))
    ∧ (filteredEvents events q).Sublist events := by
  have heq : filteredEvents events q = events.filter (amendedMatchesC9 (strLower q)) := by
    unfold filteredEvents
    rw [if_neg h]
    rfl
  exact ⟨heq, heq ▸ List.filter_sublist _⟩

/-- Witness for C9 at a concrete event and query. -/
theorem search_filter_amended_witness :
    trimStr "GET" ≠ ""
    ∧ filteredEvents [c9Event] "GET" = [c9Event].filter (amendedMatchesC9 (strLower "GET"))
    ∧ (filteredEvents [c9Event] "GET").Sublist [c9Event] := by
  have h := search_filter_amended [c9Event] "GET" (by decide)
  exact ⟨by decide, h.1, h.2⟩

/-- C10: a stored settings value that is a string not parseable as JSON is
treated exactly like a missing record: `getWebhookSettings` catches the
`JSON.parse` error and returns null, and the capture endpoint falls back
to the default 200 acknowledgement. -/
theorem corrupted_settings_ignored (s : String) (h : jsonParse s = none) :
    getWebhookSettingsR (RRead.val (JVal.str s)) = none
    ∧ ∀ zs t m, (handleWebhook zs t m false (RRead.val (JVal.str s))).1 = defaultResponse := by
  have hg : getWebhookSettingsR (RRead.val (JVal.str s)) = none := by
    by_cases hs : s = ""
    · subst hs
      rfl
    · simp [getWebhookSettingsR, truthy, hs, h]
  exact ⟨hg, fun zs t m => by simp [handleWebhook, hg]⟩

/-- Witness for C10 at the concrete corrupted value `"not valid json"`. -/
theorem corrupted_settings_ignored_witness :
    jsonParse "not valid json" = none
    ∧ getWebhookSettingsR (RRead.val (JVal.str "not valid json")) = none
    ∧ (handleWebhook [] 1 "m" false (RRead.val (JVal.str "not valid json"))).1
        = defaultResponse := by
  have h := corrupted_settings_ignored "not valid json" (by decide)
  exact ⟨by decide, h.1, h.2 [] 1 "m"⟩
